import Mathlib

/-!
Verification of the snapshot-extraction-and-comparison core of the
CourseWeb Fav Navigator browser extension.

The definitions below are a shallow embedding of `background.js`
(page classifier, the three content extractors, the per-section and
all-section check cycle).  The comparison utilities that
`background.js` pulls in via `importScripts('utils/compare.js')`
(`identityOf`, `normalize` / `createStableSnapshot`, `compareSnapshots`)
are not part of the sources available here; they are modelled from the
specification (sections 4.1, 4.2, 4.5) and are marked as such.

JavaScript strings are modelled as Lean `String`s; the handful of
string operations the code uses (`trim`, `toLowerCase`, `includes`,
`startsWith`, `split('/').pop()`) are defined below over the
character list of the string, mirroring their JS semantics on the
ASCII inputs the extension manipulates (JS `length` counts UTF-16
units, the model counts characters; the two agree outside astral
planes).
-/

namespace CourseWeb

/-- JS string truthiness: a string is truthy iff it is non-empty. -/
def jsTruthy (s : String) : Bool := !s.data.isEmpty

/-- JS truthiness chain `a || b` on strings: the empty string is falsy. -/
def jsOr (a b : String) : String := if jsTruthy a then a else b

/-- JS `String.prototype.trim`: drop leading and trailing whitespace. -/
def jsTrim (s : String) : String :=
  String.mk (((s.data.dropWhile Char.isWhitespace).reverse.dropWhile Char.isWhitespace).reverse)

/-- JS `String.prototype.toLowerCase` (ASCII range, which is all the code compares). -/
def jsToLower (s : String) : String := String.mk (s.data.map Char.toLower)

/-- Does `pat` occur as a contiguous run inside `cs`? -/
def hasInfix (pat : List Char) : List Char → Bool
  | [] => pat.isEmpty
  | c :: rest => pat.isPrefixOf (c :: rest) || hasInfix pat rest

/-- JS `String.prototype.includes`. -/
def jsIncludes (s pat : String) : Bool := hasInfix pat.data s.data

/-- JS `String.prototype.startsWith`. -/
def jsStartsWith (s pat : String) : Bool := pat.data.isPrefixOf s.data

/-- JS `String.prototype.endsWith`. -/
def jsEndsWith (s pat : String) : Bool := pat.data.isSuffixOf s.data

/-- Split a character list on a separator character (JS `split(sep)`). -/
def splitOnChar (sep : Char) : List Char → List (List Char)
  | [] => [[]]
  | c :: rest =>
    match splitOnChar sep rest with
    | [] => [[c]]
    | seg :: segs => if c = sep then [] :: seg :: segs else (c :: seg) :: segs

/-- JS `url.split('/').pop()`: the last `/`-separated segment (possibly empty). -/
def lastSegment (s : String) : String :=
  String.mk ((splitOnChar '/' s.data).getLastD [])

/-! ## Data model: snapshot items (spec section 3) -/

/-- Field set of a structured snapshot item.  Extractors populate
`name`/`url`/`ty`; the `id`/`text` fields only matter to the identity
resolver's fallback chain (spec 4.1). `ty` stands for the JS `type` field. -/
structure ItemRec where
  name : Option String
  url : Option String
  ty : Option String
  id : Option String
  text : Option String
deriving DecidableEq, Repr

/-- A snapshot item: a structured record, or a legacy bare string. -/
inductive Item where
  | str (s : String)
  | obj (r : ItemRec)
deriving DecidableEq, Repr

/-- Item `{name, url, type}` as pushed by the extractors for linked content. -/
def linkedItem (name url ty : String) : Item :=
  .obj ⟨some name, some url, some ty, none, none⟩

/-- Item `{name, type}` as pushed by the extractors for unlinked content. -/
def namedItem (name ty : String) : Item :=
  .obj ⟨some name, none, some ty, none, none⟩

/-- The `type` tag of an item, when it is a structured record. -/
def itemTy : Item → Option String
  | .str _ => none
  | .obj r => r.ty

/-- The `url` field of an item, defaulting to the empty string. -/
def itemUrlD : Item → String
  | .str _ => ""
  | .obj r => r.url.getD ""

/-- The `name` field of an item, defaulting to the empty string. -/
def itemNameD : Item → String
  | .str _ => ""
  | .obj r => r.name.getD ""

/-! ## Parsed-document model

The extractors interrogate the parsed HTML document only through a
fixed family of selector queries; the document is modelled as the
tuple of those query results, each in document order. -/

/-- One anchor element carrying an `href` attribute (`a[href]`), with the
attributes and properties the extractors read.  Absent attributes are
modelled as the empty string, which is how JS truthiness treats them in
every use site of this code (`getAttribute(...) || fallback`). -/
structure Anchor where
  hrefAttr : String
  hrefProp : String
  textContent : String
  titleAttr : String
  ariaLabel : String
deriving DecidableEq, Repr

/-- The parsed document, as the results of the selector queries the code
performs: `title`, `baseURI`, `querySelectorAll('a[href]')`, the inner
link of each activity/resource container, the heading text of each
notice container, the text of each announcement container, the
`h1,h2,h3` texts, and whether
`querySelector('.activityinstance, .modtype_resource, .modtype_folder')`
finds anything. -/
structure Doc where
  title : String
  baseURI : String
  anchors : List Anchor
  activities : List (Option Anchor)
  noticeTitles : List (Option String)
  announcements : List String
  headings : List String
  hasActivityElem : Bool
deriving Repr

/-- Models the browser `new URL(href, base)` constructor used at
background.js:282, simplified: root-relative references are joined to
the origin of the base and other relative references to the directory
of the base, omitting WHATWG path normalization (`.` and `..` dot
segments are not collapsed).  The proofs below use nothing about the
resolved value beyond its being a non-empty string, which holds for
the real constructor as well. -/
def resolveURL (href base : String) : String :=
  if !jsTruthy href then base
  else if jsStartsWith href "/" then
    (match base.splitOn "/" with
     | scheme :: "" :: host :: _ => scheme ++ "//" ++ host
     | _ => base) ++ href
  else
    (String.intercalate "/" (base.splitOn "/").dropLast ++ "/") ++ href

/-- `link.getAttribute('href') || link.href || ''` (background.js:281). -/
def anchorHref (a : Anchor) : String := jsOr a.hrefAttr a.hrefProp

/-- `href.startsWith('http') ? href : new URL(href, doc.baseURI || 'https://www.courseweb.sliit.lk').href`
(background.js:282). -/
def resolveFullUrl (doc : Doc) (href : String) : String :=
  if jsStartsWith href "http" then href
  else resolveURL href (jsOr doc.baseURI "https://www.courseweb.sliit.lk")

/-! ## Page classifier (background.js:254-268) -/

/-- `isModulePage(url, doc)`: URL contains `/course/view.php` or `/mod/`,
or the document has an activity/resource/folder instance element. -/
def isModulePage (url : String) (doc : Doc) : Bool :=
  jsIncludes url "/course/view.php" ||
  jsIncludes url "/mod/" ||
  doc.hasActivityElem

/-- `doc.querySelector('a[href*=".pdf"]') !== null`: some anchor whose raw
`href` attribute contains `.pdf` (attribute selectors are case-sensitive). -/
def hasPdfHrefAnchor (doc : Doc) : Bool :=
  doc.anchors.any fun a => jsIncludes a.hrefAttr ".pdf"

/-- Match `b` after a (possibly empty) run of non-line-terminator
characters, i.e. the regex fragment `.*b` anchored at the start of the
input (JS `.` does not match line terminators). -/
def starThen (b : List Char) : List Char → Bool
  | [] => b.isEmpty
  | c :: rest => b.isPrefixOf (c :: rest) || (!(c = '\n' || c = '\r') && starThen b rest)

/-- Unanchored search for the regex fragment `a.*b`. -/
def seqMatch (a b : List Char) : List Char → Bool
  | [] => a.isEmpty && starThen b ([].drop a.length)
  | c :: rest =>
    (a.isPrefixOf (c :: rest) && starThen b ((c :: rest).drop a.length)) ||
    seqMatch a b rest

/-- The title test `/unofficial.*result|result.*page/i.test(doc.title || '')`
(background.js:266). -/
def titleRegexMatch (t : String) : Bool :=
  seqMatch "unofficial".data "result".data (jsToLower t).data ||
  seqMatch "result".data "page".data (jsToLower t).data

/-- `isResultsPage(url, doc)` (background.js:263-268).  Note: the URL
substring tests are case-sensitive, and the PDF-link probe is a
substring containment on the `href` attribute. -/
def isResultsPage (url : String) (doc : Doc) : Bool :=
  jsIncludes url "unofficial" ||
  jsIncludes url "result" ||
  titleRegexMatch doc.title ||
  hasPdfHrefAnchor doc

/-- The classification outcome of the dispatch chain in `extractSnapshot`. -/
inductive PageType where
  | modulePage
  | resultsPage
  | genericPage
deriving DecidableEq, Repr

/-- The dispatch order of background.js:237-244: Module first, then
Results, then the Generic fallback. -/
def classify (url : String) (doc : Doc) : PageType :=
  if isModulePage url doc then .modulePage
  else if isResultsPage url doc then .resultsPage
  else .genericPage

/-! ## Content extractors (background.js:273-516)

Each extractor threads a `seen` identity set and an output snapshot
through its selector loops (`const snapshot = []; const seen = new Set()`).
The JS `Set` of string keys is modelled as a list with membership. -/

/-- The accumulator of one extractor call: the dedup key set and the
snapshot built so far. -/
structure ExtAcc where
  seen : List String
  snapshot : List Item
deriving Repr

/-- `seen.add(key); snapshot.push(item)`. -/
def pushItem (acc : ExtAcc) (key : String) (it : Item) : ExtAcc :=
  ⟨key :: acc.seen, acc.snapshot ++ [it]⟩

/-- The PDF test at background.js:285:
`href.toLowerCase().includes('.pdf') || fullUrl.toLowerCase().includes('.pdf')`. -/
def pdfCond (doc : Doc) (a : Anchor) : Bool :=
  jsIncludes (jsToLower (anchorHref a)) ".pdf" ||
  jsIncludes (jsToLower (resolveFullUrl doc (anchorHref a))) ".pdf"

/-- The dedup key of a PDF-loop hit: the lowercased resolved URL. -/
def urlKey (doc : Doc) (a : Anchor) : String :=
  jsToLower (resolveFullUrl doc (anchorHref a))

/-- Name fallback chain of the module PDF loop (background.js:286-291). -/
def modulePdfName (doc : Doc) (a : Anchor) : String :=
  jsOr (jsTrim a.textContent)
    (jsOr (jsTrim a.titleAttr)
      (jsOr a.titleAttr
        (jsOr a.ariaLabel
          (jsOr (lastSegment (resolveFullUrl doc (anchorHref a))) "PDF Document"))))

/-- The `{name, url, type: 'pdf'}` item the module PDF loop pushes for an anchor. -/
def modulePdfItem (doc : Doc) (a : Anchor) : Item :=
  linkedItem (modulePdfName doc a) (resolveFullUrl doc (anchorHref a)) "pdf"

/-- One iteration of the module extractor's PDF loop (background.js:280-306). -/
def modulePdfStep (doc : Doc) (acc : ExtAcc) (a : Anchor) : ExtAcc :=
  if pdfCond doc a then
    let url := resolveFullUrl doc (anchorHref a)
    let key := jsToLower url
    if !(acc.seen.contains key) && jsTruthy url then
      pushItem acc key (modulePdfItem doc a)
    else acc
  else acc

/-- One iteration of the module extractor's activity loop (background.js:310-327). -/
def moduleActivityStep (doc : Doc) (acc : ExtAcc) (ol : Option Anchor) : ExtAcc :=
  match ol with
  | none => acc
  | some link =>
    let fullUrl := resolveFullUrl doc (anchorHref link)
    let name := jsOr (jsTrim link.textContent) (jsOr (jsTrim link.titleAttr) link.titleAttr)
    let key := jsToLower fullUrl
    if jsTruthy name && !(acc.seen.contains key) && jsTruthy fullUrl then
      pushItem acc key (linkedItem name fullUrl "activity")
    else acc

/-- `querySelectorAll('a[href*="file"], a[href*="resource"], a[href*="download"]')`
(background.js:330): the anchors whose raw `href` attribute contains one of the
three markers, in document order. -/
def fileLinksOf (doc : Doc) : List Anchor :=
  doc.anchors.filter fun a =>
    jsIncludes a.hrefAttr "file" || jsIncludes a.hrefAttr "resource" ||
    jsIncludes a.hrefAttr "download"

/-- One iteration of the module extractor's file-link loop (background.js:331-351). -/
def moduleFileStep (doc : Doc) (acc : ExtAcc) (a : Anchor) : ExtAcc :=
  let fullUrl := resolveFullUrl doc (anchorHref a)
  if jsIncludes (jsToLower fullUrl) ".pdf" then acc
  else
    let name := jsOr (jsTrim a.textContent)
      (jsOr (jsTrim a.titleAttr) (jsOr a.titleAttr (lastSegment fullUrl)))
    let key := jsToLower fullUrl
    if jsTruthy name && !(acc.seen.contains key) && jsTruthy fullUrl then
      pushItem acc key (linkedItem name fullUrl "file")
    else acc

/-- One iteration of the module extractor's notice loop (background.js:355-367). -/
def moduleNoticeStep (acc : ExtAcc) (ot : Option String) : ExtAcc :=
  match ot with
  | none => acc
  | some raw =>
    let title := jsTrim raw
    if jsTruthy title && title.length > 3 then
      let key := "notice|" ++ jsToLower title
      if !(acc.seen.contains key) then pushItem acc key (namedItem title "notice")
      else acc
    else acc

/-- `extractModulePageSnapshot(doc)` (background.js:273-371). -/
def extractModulePageSnapshot (doc : Doc) : List Item :=
  let acc1 := doc.anchors.foldl (modulePdfStep doc) ⟨[], []⟩
  let acc2 := doc.activities.foldl (moduleActivityStep doc) acc1
  let acc3 := (fileLinksOf doc).foldl (moduleFileStep doc) acc2
  let acc4 := doc.noticeTitles.foldl moduleNoticeStep acc3
  acc4.snapshot

/-- Name fallback chain of the results PDF loop (background.js:389-394). -/
def resultPdfName (doc : Doc) (a : Anchor) : String :=
  jsOr (jsTrim a.textContent)
    (jsOr (jsTrim a.titleAttr)
      (jsOr a.titleAttr
        (jsOr a.ariaLabel
          (jsOr (lastSegment (resolveFullUrl doc (anchorHref a))) "Result PDF"))))

/-- One iteration of the results extractor's PDF loop (background.js:383-409). -/
def resultPdfStep (doc : Doc) (acc : ExtAcc) (a : Anchor) : ExtAcc :=
  if pdfCond doc a then
    let url := resolveFullUrl doc (anchorHref a)
    let key := jsToLower url
    if !(acc.seen.contains key) && jsTruthy url then
      pushItem acc key (linkedItem (resultPdfName doc a) url "result")
    else acc
  else acc

/-- One iteration of the results extractor's announcement loop
(background.js:413-425). -/
def resultAnnouncementStep (acc : ExtAcc) (raw : String) : ExtAcc :=
  let text := jsTrim raw
  if jsTruthy text && text.length > 10 && text.length < 200 then
    let key := "announcement|" ++ jsToLower text
    if !(acc.seen.contains key) then pushItem acc key (namedItem text "announcement")
    else acc
  else acc

/-- `extractResultsPageSnapshot(doc)` (background.js:376-429). -/
def extractResultsPageSnapshot (doc : Doc) : List Item :=
  let acc1 := doc.anchors.foldl (resultPdfStep doc) ⟨[], []⟩
  let acc2 := doc.announcements.foldl resultAnnouncementStep acc1
  acc2.snapshot

/-- Name fallback chain of the generic PDF loop (background.js:446-450):
unlike the module chain, no aria-label step. -/
def genericPdfName (doc : Doc) (a : Anchor) : String :=
  jsOr (jsTrim a.textContent)
    (jsOr (jsTrim a.titleAttr)
      (jsOr a.titleAttr
        (jsOr (lastSegment (resolveFullUrl doc (anchorHref a))) "PDF Document")))

/-- One iteration of the generic extractor's PDF loop (background.js:440-463). -/
def genericPdfStep (doc : Doc) (acc : ExtAcc) (a : Anchor) : ExtAcc :=
  if pdfCond doc a then
    let url := resolveFullUrl doc (anchorHref a)
    let key := jsToLower url
    if !(acc.seen.contains key) && jsTruthy url then
      pushItem acc key (linkedItem (genericPdfName doc a) url "pdf")
    else acc
  else acc

/-- The navigation stoplist regex `^(home|back|next|previous|menu|login|logout)$/i`
(background.js:483). -/
def isNavWord (name : String) : Bool :=
  ["home", "back", "next", "previous", "menu", "login", "logout"].contains (jsToLower name)

/-- Label of a generic link: `textContent.trim() || title.trim() || getAttribute('title') || ''`
(background.js:475). -/
def genericLinkName (a : Anchor) : String :=
  jsOr (jsTrim a.textContent) (jsOr (jsTrim a.titleAttr) a.titleAttr)

/-- One iteration of the generic extractor's link loop (background.js:466-496). -/
def genericLinkStep (doc : Doc) (acc : ExtAcc) (a : Anchor) : ExtAcc :=
  let fullUrl := resolveFullUrl doc (anchorHref a)
  if jsIncludes (jsToLower fullUrl) ".pdf" then acc
  else
    let name := genericLinkName a
    if !jsTruthy name || name.length < 3 || name.length > 200 then acc
    else if isNavWord name then acc
    else
      let key := jsToLower fullUrl
      if !(acc.seen.contains key) && jsTruthy fullUrl then
        pushItem acc key (linkedItem name fullUrl "link")
      else acc

/-- One iteration of the generic extractor's heading loop (background.js:500-512). -/
def genericHeadingStep (acc : ExtAcc) (raw : String) : ExtAcc :=
  let text := jsTrim raw
  if jsTruthy text && text.length > 3 && text.length < 200 then
    let key := "heading|" ++ jsToLower text
    if !(acc.seen.contains key) then pushItem acc key (namedItem text "heading")
    else acc
  else acc

/-- `extractGenericPageSnapshot(doc)` (background.js:434-516). -/
def extractGenericPageSnapshot (doc : Doc) : List Item :=
  let acc1 := doc.anchors.foldl (genericPdfStep doc) ⟨[], []⟩
  let acc2 := doc.anchors.foldl (genericLinkStep doc) acc1
  let acc3 := doc.headings.foldl genericHeadingStep acc2
  acc3.snapshot

/-! ## extractSnapshot (background.js:231-249) -/

/-- The outcome of `new DOMParser().parseFromString(html, 'text/html')`
together with any exception raised inside the `try` block of
`extractSnapshot`: a raised exception is the `failed` constructor. -/
inductive ParseResult where
  | failed (msg : String)
  | parsed (doc : Doc)

/-- `extractSnapshot(html, url)`: dispatch on the page classification;
any exception in the `try` block yields the empty snapshot
(background.js:245-248). -/
def extractSnapshot (p : ParseResult) (url : String) : List Item :=
  match p with
  | .failed _ => []
  | .parsed doc =>
    match classify url doc with
    | .modulePage => extractModulePageSnapshot doc
    | .resultsPage => extractResultsPageSnapshot doc
    | .genericPage => extractGenericPageSnapshot doc

/-! ## Comparison utilities

`background.js` imports these from `utils/compare.js`, which is not
among the available sources; they are modelled from the spec. -/

/-- Modelled from the spec: rule 6 of the identity fallback chain
(section 4.1), "synthesize `type|name|url` by joining present fields
with `|` (skipping absent fields)". -/
def synthIdentity (r : ItemRec) : String :=
  String.intercalate "|" ([r.ty, r.name, r.url].filterMap id)

/-- Modelled from the spec: `identityOf(item)` (section 4.1), the
priority chain — trimmed string value; else trimmed non-empty `url`;
else trimmed `name`; else `id`; else `text`; else the `type|name|url`
synthesis; else a last-resort serialization of the item. -/
def identityOf (it : Item) : String :=
  match it with
  | .str s => jsTrim s
  | .obj r =>
    if r.url.isSome && jsTruthy (jsTrim (r.url.getD "")) then jsTrim (r.url.getD "")
    else if r.name.isSome then jsTrim (r.name.getD "")
    else if r.id.isSome then r.id.getD ""
    else if r.text.isSome then r.text.getD ""
    else if jsTruthy (synthIdentity r) then synthIdentity r
    else "[object Object]"

/-- The lowercased identity key of an item: spec 4.1, "identity
comparison is always performed after lower-casing". -/
def keyOf (it : Item) : String := jsToLower (identityOf it)

/-- Lexicographic comparison of character lists (the ordinal string
order used to model the spec's ordinal/locale comparison). -/
def listCharLe : List Char → List Char → Bool
  | [], _ => true
  | _ :: _, [] => false
  | a :: as, b :: bs => if a = b then listCharLe as bs else decide (a < b)

/-- Ordinal order on identity keys. -/
def keyLe (a b : String) : Bool := listCharLe a.data b.data

/-- Modelled from the spec: the first pass of `normalize` (section 4.2)
— iterate raw items in original order, keep an item only on the first
occurrence of its (lowercased) identity, dropping items whose identity
is empty (section 3 invariant); `taken` is the set of identities
claimed so far. -/
def dedupKeyed (taken : List String) : List Item → List (String × Item)
  | [] => []
  | it :: rest =>
    let k := keyOf it
    if !jsTruthy k || taken.contains k then dedupKeyed taken rest
    else (k, it) :: dedupKeyed (k :: taken) rest

/-- The sort order of `normalize`: by identity key. -/
def pairLe (p q : String × Item) : Prop := keyLe p.1 q.1 = true

instance : DecidableRel pairLe :=
  fun p q => inferInstanceAs (Decidable (keyLe p.1 q.1 = true))

/-- The strict companion of `pairLe`: the keys strictly increase. -/
def pairLt (p q : String × Item) : Prop := pairLe p q ∧ p.1 ≠ q.1

/-- Modelled from the spec: `normalize(rawItems)` (section 4.2) —
first-occurrence dedup by lowercased identity, then sort the retained
items by their identity string. -/
def normalize (rawItems : List Item) : List Item :=
  ((dedupKeyed [] rawItems).insertionSort pairLe).map Prod.snd

/-- Modelled from the spec: `createStableSnapshot` is an alias of
`normalize` (section 6). -/
def createStableSnapshot (rawItems : List Item) : List Item := normalize rawItems

/-- Modelled from the spec: the identity set of a snapshot (section 4.5),
case-folded, with insertion-order dedup (a JS `Set`). -/
def identityKeySet (l : List Item) : List String :=
  l.foldl (fun acc it =>
    let k := keyOf it
    if acc.contains k then acc else acc ++ [k]) []

/-- Modelled from the spec: `compareSnapshots(old, new)` (section 4.5) —
empty old: report change iff new is non-empty; empty new against
non-empty old: no change; otherwise compare identity-set sizes, then
membership of each new identity in the old set. -/
def compareSnapshots (oldSnap newSnap : List Item) : Bool :=
  if oldSnap.isEmpty then !newSnap.isEmpty
  else if newSnap.isEmpty then false
  else
    let oldIds := identityKeySet oldSnap
    let newIds := identityKeySet newSnap
    if oldIds.length ≠ newIds.length then true
    else newIds.any fun k => !(oldIds.contains k)

/-! ## The check cycle (background.js:98-223) -/

/-- A saved section record (`savedSections` entries). -/
structure SectionRec where
  id : String
  name : String
  url : String
  hasNew : Bool
  lastSnapshot : List Item
  lastChecked : Option String
deriving DecidableEq, Repr

/-- The outcome of `fetch(section.url, ...)` as `checkSectionForUpdates`
observes it: a thrown error, a non-ok HTTP response, or a body whose
parse outcome is `p` (the body string itself is only ever handed to
`extractSnapshot`, so it is represented by its parse outcome). -/
inductive FetchResult where
  | fetchFailed (msg : String)
  | notOk (status : Nat)
  | ok (p : ParseResult)

/-- `checkSectionForUpdates(section)` (background.js:146-223), with the
wall clock (`new Date().toISOString()`) passed in as `now`.  Returns the
updated section record and the boolean result.  The console.log
diagnostics of the changed branch (lines 190-207) read no state that
survives, and are omitted.  A thrown fetch error lands in the catch at
line 219-222: return `false`, section untouched. -/
def checkSectionForUpdates (fetch : FetchResult) (now : String) (s : SectionRec) :
    SectionRec × Bool :=
  match fetch with
  | .fetchFailed _ => (s, false)
  | .notOk _ => (s, false)
  | .ok p =>
    let newSnapshot := extractSnapshot p s.url
    let oldSnapshot := s.lastSnapshot
    let isFirstCheck := oldSnapshot.isEmpty
    let hasChanges := compareSnapshots oldSnapshot newSnapshot
    if hasChanges then
      if isFirstCheck then
        ({ s with lastSnapshot := createStableSnapshot newSnapshot,
                  lastChecked := some now }, false)
      else
        ({ s with lastSnapshot := createStableSnapshot newSnapshot,
                  lastChecked := some now }, true)
    else
      ({ s with lastChecked := some now }, false)

/-- The per-section postlude of the `checkAllSavedSections` loop
(background.js:116-120): flag the section when its check reported
updates. -/
def applyNewFlag (p : SectionRec × Bool) : SectionRec :=
  if p.2 then { p.1 with hasNew := true } else p.1

/-- `checkAllSavedSections()` (background.js:98-139): check each saved
section in order, collecting the updated records and whether any
reported updates.  The fetch outcome of the i-th section is `fetchOf i`;
storage and badge writes are outside the model. -/
def checkAllSavedSections (fetchOf : Nat → FetchResult) (now : String)
    (sections : List SectionRec) : List SectionRec × Bool :=
  sections.enum.foldl (fun acc p =>
    let r := checkSectionForUpdates (fetchOf p.1) now p.2
    (acc.1 ++ [applyNewFlag r], acc.2 || r.2)) ([], false)

/-! ## Spec-side definitions used to check the classifier claims -/

/-- Unanchored search for `a`, then `b` anywhere later (the "combining
the two words in either order" reading of the spec's title pattern). -/
def inOrder (a b : List Char) : List Char → Bool
  | [] => a.isEmpty && b.isEmpty
  | c :: rest =>
    (a.isPrefixOf (c :: rest) && hasInfix b ((c :: rest).drop a.length)) ||
    inOrder a b rest

/-- Does the string end in the PDF extension, case-insensitively? -/
def endsInPdfExt (s : String) : Bool := jsEndsWith (jsToLower s) ".pdf"

/-- The ResultsPage condition as claim C4 states it: case-insensitive
URL substrings, title pattern combining "unofficial" and "result" in
either order, or some link whose reference ends in a PDF extension. -/
def isResultsPageClaim (url : String) (doc : Doc) : Bool :=
  jsIncludes (jsToLower url) "unofficial" ||
  jsIncludes (jsToLower url) "result" ||
  inOrder "unofficial".data "result".data (jsToLower doc.title).data ||
  inOrder "result".data "unofficial".data (jsToLower doc.title).data ||
  doc.anchors.any fun a => endsInPdfExt a.hrefAttr

/-- The ResultsPage condition as the code actually has it, written out
from the amended claim: case-sensitive URL substrings "unofficial" /
"result", the lowercased title containing "unofficial" later followed
by "result" or "result" later followed by "page" (gap free of line
terminators), or some link whose raw href attribute contains ".pdf". -/
def isResultsPageAmended (url : String) (doc : Doc) : Bool :=
  jsIncludes url "unofficial" ||
  jsIncludes url "result" ||
  seqMatch "unofficial".data "result".data (jsToLower doc.title).data ||
  seqMatch "result".data "page".data (jsToLower doc.title).data ||
  doc.anchors.any fun a => jsIncludes a.hrefAttr ".pdf"

/-! ## Proof infrastructure for the extractor dedup invariant -/

/-- The dedup key an extractor uses for an item it pushed: the
lowercased URL for linked items, and `<type>|<lowercased name>` for
unlinked items (notice/announcement/heading), matching the `seen` keys
of background.js:295, 316, 341, 358, 398, 416, 452, 487, 503. -/
def dedupKey : Item → String
  | .str s => jsToLower s
  | .obj r =>
    match r.url with
    | some u => jsToLower u
    | none => (r.ty.getD "") ++ "|" ++ jsToLower (r.name.getD "")

/-- A loop body is a well-behaved dedup step when each iteration either
leaves the accumulator alone or pushes a single item under its own
dedup key, after checking that key is unseen. -/
def StepOk {β : Type} (f : ExtAcc → β → ExtAcc) : Prop :=
  ∀ acc b, f acc b = acc ∨
    ∃ key it, dedupKey it = key ∧ acc.seen.contains key = false ∧
      f acc b = pushItem acc key it

/-- The dedup invariant: the pushed items have pairwise distinct dedup
keys, and every pushed key is registered in `seen`. -/
def KeysNodup (acc : ExtAcc) : Prop :=
  (acc.snapshot.map dedupKey).Nodup ∧
  ∀ it ∈ acc.snapshot, acc.seen.contains (dedupKey it) = true

/-- A refinement of `StepOk` that also records a per-iteration shape
predicate `P` for whatever item the iteration pushes. -/
def StepOkP {β : Type} (f : ExtAcc → β → ExtAcc) (P : β → Item → Prop) : Prop :=
  ∀ acc b, f acc b = acc ∨
    ∃ key it, dedupKey it = key ∧ acc.seen.contains key = false ∧ P b it ∧
      f acc b = pushItem acc key it

/-- The `{name, url, type: 'pdf'}` item the generic PDF loop pushes. -/
def genericPdfItem (doc : Doc) (a : Anchor) : Item :=
  linkedItem (genericPdfName doc a) (resolveFullUrl doc (anchorHref a)) "pdf"

/-- The `{name, url, type: 'result'}` item the results PDF loop pushes. -/
def resultPdfItem (doc : Doc) (a : Anchor) : Item :=
  linkedItem (resultPdfName doc a) (resolveFullUrl doc (anchorHref a)) "result"

/-- The `{name, url, type: 'link'}` item the generic link loop pushes. -/
def genericLinkItem (doc : Doc) (a : Anchor) : Item :=
  linkedItem (genericLinkName a) (resolveFullUrl doc (anchorHref a)) "link"

/-- The filter conditions of the generic link loop
(background.js:471-488) bundled: the resolved URL is not PDF-flavored,
the derived label is non-empty, of length 3..200, and not a navigation
stopword. -/
def genericLinkCond (doc : Doc) (a : Anchor) : Bool :=
  !(jsIncludes (jsToLower (resolveFullUrl doc (anchorHref a))) ".pdf") &&
  !(!jsTruthy (genericLinkName a) ||
    (genericLinkName a).length < 3 || (genericLinkName a).length > 200) &&
  !(isNavWord (genericLinkName a))

/-! ## Concrete documents and sections used by witnesses and counterexamples -/

/-- Two distinct items sharing one identity (same URL, different
names), used to exhibit the order-dependence of `normalize`. -/
def c7ItemA : Item := Item.obj ⟨some "A", some "https://u/x", some "pdf", none, none⟩

/-- See `c7ItemA`. -/
def c7ItemB : Item := Item.obj ⟨some "B", some "https://u/x", some "pdf", none, none⟩

/-- An item with an identity distinct from `c7ItemA`, used in the C7
witness. -/
def c7ItemC : Item := Item.obj ⟨some "C", some "https://u/y", some "pdf", none, none⟩

/-- The C5 counterexample anchor: its reference contains ".pdf" but
does not end in the PDF extension. -/
def c5CAnchor : Anchor := Anchor.mk "https://x/a.pdfzz" "" "Lecture" "" ""

/-- The C5 counterexample document. -/
def c5CDoc : Doc := Doc.mk "" "" [c5CAnchor] [] [] [] [] false

/-- The C5 witness anchor: an ordinary PDF link. -/
def c5WAnchor : Anchor := Anchor.mk "https://x/notes.pdf" "" "Notes" "" ""

/-- The C5 witness document. -/
def c5WDoc : Doc := Doc.mk "" "" [c5WAnchor] [] [] [] [] false

/-- The C6 scenario document: two anchors to the same PDF URL whose
link texts differ only in surrounding whitespace. -/
def c6Doc : Doc :=
  Doc.mk "" ""
    [Anchor.mk "https://x/a.pdf" "" " Notes " "" "",
     Anchor.mk "https://x/a.pdf" "" "Notes" "" ""] [] [] [] [] false

/-- The C8 counterexample anchor: empty link text, but a title
attribute that the code falls back to. -/
def c8CAnchor : Anchor := Anchor.mk "https://x/syllabus" "" "" "Course Syllabus" ""

/-- The C8 counterexample document. -/
def c8CDoc : Doc := Doc.mk "" "" [c8CAnchor] [] [] [] [] false

/-- The C8 witness anchor: an ordinary content link. -/
def c8WAnchor : Anchor := Anchor.mk "https://x/week1" "" "Weekly Notes" "" ""

/-- The C8 witness document. -/
def c8WDoc : Doc := Doc.mk "" "" [c8WAnchor] [] [] [] [] false

/-- The C4 counterexample document: empty body, title "Result
Unofficial" (the claim's either-order title pattern matches it). -/
def c4Doc : Doc := Doc.mk "Result Unofficial" "" [] [] [] [] [] false

/-- The document used in the C1 witness: a generic page with one
heading, which extracts to a one-item snapshot. -/
def c1Doc : Doc := Doc.mk "" "" [] [] [] [] ["Announcements"] false

/-- The section record used in the C1 witness: never checked before. -/
def c1Sec : SectionRec := SectionRec.mk "id-1" "S" "https://sliit.lk/page" false [] none

/-- The section used in the C10 witness: a non-empty stored baseline. -/
def c10Sec : SectionRec :=
  SectionRec.mk "id-2" "S" "https://sliit.lk/page" false
    [linkedItem "A" "https://sliit.lk/a" "pdf"] (some "T0")

/-! ## Theorems -/

/-- C2: any parse exception raised while parsing or extracting — the
`ParseResult.failed` outcome of the try block — is caught at the
extraction-dispatch boundary and `extractSnapshot` returns the empty
snapshot; on every input it returns a value rather than propagating. -/
theorem extractSnapshot_total_and_catches :
    ∀ (p : ParseResult) (url : String),
      (∃ snap : List Item, extractSnapshot p url = snap) ∧
      (∀ msg, p = ParseResult.failed msg → extractSnapshot p url = []) := by
  intro p url
  refine ⟨⟨extractSnapshot p url, rfl⟩, ?_⟩
  rintro msg rfl
  rfl

/-- C3: a page satisfying both the ModulePage and the ResultsPage
signals classifies as ModulePage — Module is tested first and first
match wins — so `extractSnapshot` dispatches it to the module
extractor. -/
theorem classify_module_precedence (url : String) (doc : Doc)
    (hm : isModulePage url doc = true)
    (hr : isResultsPage url doc = true) :
    classify url doc = PageType.modulePage ∧
    extractSnapshot (ParseResult.parsed doc) url = extractModulePageSnapshot doc := by
  have hc : classify url doc = PageType.modulePage := by
    unfold classify
    rw [hm]
    simp
  refine ⟨hc, ?_⟩
  unfold extractSnapshot
  dsimp only
  rw [hc]

/-- Witness for C3: a course-view URL whose document title also
matches the results title pattern satisfies both signal sets and is
dispatched to the module extractor. -/
theorem classify_module_precedence_witness :
    classify "https://courseweb.sliit.lk/course/view.php?id=2"
      (Doc.mk "Unofficial Results" "" [] [] [] [] [] false) = PageType.modulePage ∧
    extractSnapshot
      (ParseResult.parsed (Doc.mk "Unofficial Results" "" [] [] [] [] [] false))
      "https://courseweb.sliit.lk/course/view.php?id=2" =
    extractModulePageSnapshot (Doc.mk "Unofficial Results" "" [] [] [] [] [] false) :=
  classify_module_precedence _ _ (by decide) (by decide)

/-- C4 counterexample: a non-module page whose title combines
"unofficial" and "result" in the claimed either-order pattern — the
claim classifies it as ResultsPage, the code's title regex
(`unofficial.*result|result.*page`) does not match, nor do the
case-sensitive URL tests or the PDF-anchor probe, so classification
falls through to GenericPage. -/
theorem classify_results_claim_counterexample :
    isModulePage "https://sliit.lk/exams" c4Doc = false ∧
    isResultsPageClaim "https://sliit.lk/exams" c4Doc = true ∧
    classify "https://sliit.lk/exams" c4Doc = PageType.genericPage := by
  decide

/-- C4 amended: for pages that are not ModulePages, classification
selects ResultsPage exactly when the URL contains "unofficial" or
"result" case-sensitively, or the lowercased title contains
"unofficial" later followed by "result" or "result" later followed by
"page", or some link's raw href attribute contains ".pdf"; otherwise
it falls back to GenericPage. -/
theorem classify_results_amended (url : String) (doc : Doc) :
    (classify url doc = PageType.resultsPage ↔
       isModulePage url doc = false ∧ isResultsPageAmended url doc = true) ∧
    (classify url doc = PageType.genericPage ↔
       isModulePage url doc = false ∧ isResultsPageAmended url doc = false) := by
  have hAmend : isResultsPageAmended url doc = isResultsPage url doc := by
    simp [isResultsPageAmended, isResultsPage, hasPdfHrefAnchor, titleRegexMatch,
      Bool.or_assoc]
  unfold classify
  rcases hM : isModulePage url doc <;> rcases hR : isResultsPage url doc <;>
    simp [hAmend, hM, hR]

/-- C1: for a section with an empty stored snapshot, when the fetched
page's snapshot is non-empty and `compareSnapshots` reports a change,
`checkSectionForUpdates` persists the normalized snapshot as the new
baseline, stamps `lastChecked`, and returns `false` — the section is
not flagged as having new content on this first observation. -/
theorem checkSection_first_observation (p : ParseResult) (now : String) (s : SectionRec)
    (hEmpty : s.lastSnapshot = [])
    (hNew : extractSnapshot p s.url ≠ [])
    (hChanged : compareSnapshots s.lastSnapshot (extractSnapshot p s.url) = true) :
    checkSectionForUpdates (FetchResult.ok p) now s =
      ({ s with lastSnapshot := createStableSnapshot (extractSnapshot p s.url),
                lastChecked := some now }, false) := by
  unfold checkSectionForUpdates
  dsimp only
  rw [hChanged]
  simp [hEmpty]

/-- Witness for C1 at a concrete first-check section. -/
theorem checkSection_first_observation_witness :
    checkSectionForUpdates (FetchResult.ok (ParseResult.parsed c1Doc)) "T0" c1Sec =
      ({ c1Sec with
          lastSnapshot :=
            createStableSnapshot (extractSnapshot (ParseResult.parsed c1Doc) c1Sec.url),
          lastChecked := some "T0" }, false) :=
  checkSection_first_observation _ _ _ rfl (by decide) (by decide)

/-- C10: when the fetch succeeds and `compareSnapshots` reports no
change, `checkSectionForUpdates` stamps `lastChecked` only and returns
`false`; `lastSnapshot` and `hasNew` keep their previous values — in
particular a non-empty stored baseline survives an empty new
snapshot. -/
theorem checkSection_no_change_frame (p : ParseResult) (now : String) (s : SectionRec)
    (hSame : compareSnapshots s.lastSnapshot (extractSnapshot p s.url) = false) :
    checkSectionForUpdates (FetchResult.ok p) now s =
      ({ s with lastChecked := some now }, false) := by
  unfold checkSectionForUpdates
  dsimp only
  rw [hSame]
  simp

/-- Witness for C10: the stored baseline is retained when the new
fetch extracts an empty snapshot. -/
theorem checkSection_no_change_frame_witness :
    checkSectionForUpdates
      (FetchResult.ok (ParseResult.parsed (Doc.mk "" "" [] [] [] [] [] false)))
      "T1" c10Sec =
      ({ c10Sec with lastChecked := some "T1" }, false) :=
  checkSection_no_change_frame _ _ _ (by decide)

/-- The loop body of `checkAllSavedSections`, folded from an arbitrary
starting accumulator, is the concatenation of the per-section results:
each section is processed independently of the others' outcomes. -/
theorem checkAll_foldl_eq (f : Nat → FetchResult) (now : String)
    (l : List (Nat × SectionRec)) (init : List SectionRec) (b : Bool) :
    l.foldl (fun acc p =>
        let r := checkSectionForUpdates (f p.1) now p.2
        (acc.1 ++ [applyNewFlag r], acc.2 || r.2)) (init, b) =
      (init ++ l.map (fun p => applyNewFlag (checkSectionForUpdates (f p.1) now p.2)),
       b || l.any (fun p => (checkSectionForUpdates (f p.1) now p.2).2)) := by
  induction l generalizing init b with
  | nil => simp
  | cons x xs ih => simp [List.foldl_cons, ih, Bool.or_assoc]

/-- C9: a failed fetch (thrown error or non-ok HTTP status) makes
`checkSectionForUpdates` return `false` with the section untouched,
and `checkAllSavedSections` maps every section — including failing
ones — through its own independent check, so one section's failure
never blocks the remaining sections. -/
theorem checkAll_error_containment (f : Nat → FetchResult) (now : String)
    (sections : List SectionRec) :
    (∀ msg s, checkSectionForUpdates (FetchResult.fetchFailed msg) now s = (s, false)) ∧
    (∀ status s, checkSectionForUpdates (FetchResult.notOk status) now s = (s, false)) ∧
    (checkAllSavedSections f now sections).1 =
      sections.enum.map
        (fun p => applyNewFlag (checkSectionForUpdates (f p.1) now p.2)) := by
  refine ⟨fun _ _ => rfl, fun _ _ => rfl, ?_⟩
  unfold checkAllSavedSections
  rw [checkAll_foldl_eq]
  simp

/-! ### The dedup invariant of the extractor loops -/

/-- Pushing an unseen key under its own dedup key preserves the dedup
invariant. -/
lemma keysNodup_push (acc : ExtAcc) (key : String) (it : Item)
    (hk : dedupKey it = key) (hn : acc.seen.contains key = false)
    (h : KeysNodup acc) : KeysNodup (pushItem acc key it) := by
  obtain ⟨h1, h2⟩ := h
  constructor
  · show ((acc.snapshot ++ [it]).map dedupKey).Nodup
    rw [List.map_append]
    refine List.Nodup.append h1 (by simp) ?_
    intro k hk1 hk2
    rcases List.mem_map.mp hk1 with ⟨it', hit', hkey'⟩
    have hks : k = dedupKey it := by simpa using hk2
    have hcon : acc.seen.contains k = true := by
      rw [← hkey']
      exact h2 it' hit'
    rw [hks, hk, hn] at hcon
    exact Bool.false_ne_true hcon
  · intro it' hmem
    show (key :: acc.seen).contains (dedupKey it') = true
    rcases List.mem_append.mp hmem with h' | h'
    · have := h2 it' h'
      simp only [List.contains_cons, Bool.or_eq_true]
      exact Or.inr this
    · have heq : it' = it := by simpa using h'
      subst heq
      rw [hk]
      simp [List.contains_cons]

/-- Folding any well-behaved dedup step preserves the dedup invariant. -/
lemma keysNodup_foldl {β : Type} {f : ExtAcc → β → ExtAcc} (hf : StepOk f) :
    ∀ (l : List β) (acc : ExtAcc), KeysNodup acc → KeysNodup (l.foldl f acc)
  | [], _, h => h
  | b :: bs, acc, h => by
    rw [List.foldl_cons]
    apply keysNodup_foldl hf bs
    rcases hf acc b with h' | ⟨key, it, hk, hn, h'⟩
    · rw [h']; exact h
    · rw [h']; exact keysNodup_push acc key it hk hn h

lemma stepOk_of_stepOkP {β : Type} {f : ExtAcc → β → ExtAcc} {P : β → Item → Prop}
    (h : StepOkP f P) : StepOk f := by
  intro acc b
  rcases h acc b with h' | ⟨key, it, hk, hn, _, h'⟩
  · exact Or.inl h'
  · exact Or.inr ⟨key, it, hk, hn, h'⟩

lemma modulePdfStep_okP (doc : Doc) :
    StepOkP (modulePdfStep doc)
      (fun a it => pdfCond doc a = true ∧ it = modulePdfItem doc a) := by
  intro acc a
  unfold modulePdfStep
  dsimp only
  split
  next hc =>
    split
    next h =>
      right
      refine ⟨_, _, ?_, ?_, ⟨hc, rfl⟩, rfl⟩
      · rfl
      · simp only [Bool.and_eq_true, Bool.not_eq_true'] at h
        exact h.1
    next => left; rfl
  next => left; rfl

lemma moduleActivityStep_okP (doc : Doc) :
    StepOkP (moduleActivityStep doc) (fun _ it => itemTy it = some "activity") := by
  intro acc ol
  cases ol with
  | none => left; rfl
  | some link =>
    unfold moduleActivityStep
    dsimp only
    split
    next h =>
      right
      refine ⟨_, _, ?_, ?_, ?_, rfl⟩
      · rfl
      · simp only [Bool.and_eq_true, Bool.not_eq_true'] at h
        exact h.1.2
      · rfl
    next => left; rfl

lemma moduleFileStep_okP (doc : Doc) :
    StepOkP (moduleFileStep doc) (fun _ it => itemTy it = some "file") := by
  intro acc a
  unfold moduleFileStep
  dsimp only
  split
  · left; rfl
  · split
    next h =>
      right
      refine ⟨_, _, ?_, ?_, ?_, rfl⟩
      · rfl
      · simp only [Bool.and_eq_true, Bool.not_eq_true'] at h
        exact h.1.2
      · rfl
    next => left; rfl

lemma moduleNoticeStep_okP :
    StepOkP moduleNoticeStep (fun _ it => itemTy it = some "notice") := by
  intro acc ot
  cases ot with
  | none => left; rfl
  | some raw =>
    unfold moduleNoticeStep
    dsimp only
    split
    · split
      next h =>
        right
        refine ⟨_, _, ?_, ?_, ?_, rfl⟩
        · rfl
        · simpa [Bool.not_eq_true'] using h
        · rfl
      next => left; rfl
    · left; rfl

lemma resultPdfStep_okP (doc : Doc) :
    StepOkP (resultPdfStep doc)
      (fun a it => pdfCond doc a = true ∧ it = resultPdfItem doc a) := by
  intro acc a
  unfold resultPdfStep
  dsimp only
  split
  next hc =>
    split
    next h =>
      right
      refine ⟨_, _, ?_, ?_, ⟨hc, rfl⟩, rfl⟩
      · rfl
      · simp only [Bool.and_eq_true, Bool.not_eq_true'] at h
        exact h.1
    next => left; rfl
  next => left; rfl

lemma resultAnnouncementStep_okP :
    StepOkP resultAnnouncementStep (fun _ it => itemTy it = some "announcement") := by
  intro acc raw
  unfold resultAnnouncementStep
  dsimp only
  split
  · split
    next h =>
      right
      refine ⟨_, _, ?_, ?_, ?_, rfl⟩
      · rfl
      · simpa [Bool.not_eq_true'] using h
      · rfl
    next => left; rfl
  · left; rfl

lemma genericPdfStep_okP (doc : Doc) :
    StepOkP (genericPdfStep doc)
      (fun a it => pdfCond doc a = true ∧ it = genericPdfItem doc a) := by
  intro acc a
  unfold genericPdfStep
  dsimp only
  split
  next hc =>
    split
    next h =>
      right
      refine ⟨_, _, ?_, ?_, ⟨hc, rfl⟩, rfl⟩
      · rfl
      · simp only [Bool.and_eq_true, Bool.not_eq_true'] at h
        exact h.1
    next => left; rfl
  next => left; rfl

lemma genericLinkStep_okP (doc : Doc) :
    StepOkP (genericLinkStep doc)
      (fun a it => genericLinkCond doc a = true ∧ it = genericLinkItem doc a) := by
  intro acc a
  unfold genericLinkStep
  dsimp only
  split
  next => left; rfl
  next h1 =>
    split
    next => left; rfl
    next h2 =>
      split
      next => left; rfl
      next h3 =>
        split
        next h4 =>
          right
          refine ⟨_, _, ?_, ?_, ⟨?_, rfl⟩, rfl⟩
          · rfl
          · simp only [Bool.and_eq_true, Bool.not_eq_true'] at h4
            exact h4.1
          · simp only [Bool.not_eq_true] at h1 h2 h3
            simp [genericLinkCond, h1, h2, h3]
        next => left; rfl

lemma genericHeadingStep_okP :
    StepOkP genericHeadingStep (fun _ it => itemTy it = some "heading") := by
  intro acc raw
  unfold genericHeadingStep
  dsimp only
  split
  · split
    next h =>
      right
      refine ⟨_, _, ?_, ?_, ?_, rfl⟩
      · rfl
      · simpa [Bool.not_eq_true'] using h
      · rfl
    next => left; rfl
  · left; rfl

lemma modulePdfStep_ok (doc : Doc) : StepOk (modulePdfStep doc) :=
  stepOk_of_stepOkP (modulePdfStep_okP doc)

lemma moduleActivityStep_ok (doc : Doc) : StepOk (moduleActivityStep doc) :=
  stepOk_of_stepOkP (moduleActivityStep_okP doc)

lemma moduleFileStep_ok (doc : Doc) : StepOk (moduleFileStep doc) :=
  stepOk_of_stepOkP (moduleFileStep_okP doc)

lemma moduleNoticeStep_ok : StepOk moduleNoticeStep :=
  stepOk_of_stepOkP moduleNoticeStep_okP

lemma resultPdfStep_ok (doc : Doc) : StepOk (resultPdfStep doc) :=
  stepOk_of_stepOkP (resultPdfStep_okP doc)

lemma resultAnnouncementStep_ok : StepOk resultAnnouncementStep :=
  stepOk_of_stepOkP resultAnnouncementStep_okP

lemma genericPdfStep_ok (doc : Doc) : StepOk (genericPdfStep doc) :=
  stepOk_of_stepOkP (genericPdfStep_okP doc)

lemma genericLinkStep_ok (doc : Doc) : StepOk (genericLinkStep doc) :=
  stepOk_of_stepOkP (genericLinkStep_okP doc)

lemma genericHeadingStep_ok : StepOk genericHeadingStep :=
  stepOk_of_stepOkP genericHeadingStep_okP


/-- The empty accumulator satisfies the dedup invariant. -/
lemma keysNodup_empty : KeysNodup ⟨[], []⟩ := by
  constructor
  · simp [KeysNodup]
  · intro it h
    simp at h

/-- C6: a single extractor call never emits two items with the same
dedup key — lowercased URL for linked items, `<type>|<lowercased
text>` for unlinked ones — for any of the three extractors; in
particular a module page with two anchors to the same PDF URL whose
link texts differ only in whitespace yields exactly one pdf item. -/
theorem extractors_dedup_keys (doc : Doc) :
    ((extractModulePageSnapshot doc).map dedupKey).Nodup ∧
    ((extractResultsPageSnapshot doc).map dedupKey).Nodup ∧
    ((extractGenericPageSnapshot doc).map dedupKey).Nodup ∧
    ((extractModulePageSnapshot c6Doc).filter
      (fun it => itemTy it == some "pdf")).length = 1 := by
  refine ⟨?_, ?_, ?_, by decide⟩
  · have h1 := keysNodup_foldl (modulePdfStep_ok doc) doc.anchors ⟨[], []⟩ keysNodup_empty
    have h2 := keysNodup_foldl (moduleActivityStep_ok doc) doc.activities _ h1
    have h3 := keysNodup_foldl (moduleFileStep_ok doc) (fileLinksOf doc) _ h2
    have h4 := keysNodup_foldl moduleNoticeStep_ok doc.noticeTitles _ h3
    exact h4.1
  · have h1 := keysNodup_foldl (resultPdfStep_ok doc) doc.anchors ⟨[], []⟩ keysNodup_empty
    have h2 := keysNodup_foldl resultAnnouncementStep_ok doc.announcements _ h1
    exact h2.1
  · have h1 := keysNodup_foldl (genericPdfStep_ok doc) doc.anchors ⟨[], []⟩ keysNodup_empty
    have h2 := keysNodup_foldl (genericLinkStep_ok doc) doc.anchors _ h1
    have h3 := keysNodup_foldl genericHeadingStep_ok doc.headings _ h2
    exact h3.1

/-! ### String facts used by the extractor phase lemmas -/

lemma jsTruthy_ne_nil {s : String} (h : s.data ≠ []) : jsTruthy s = true := by
  cases hd : s.data with
  | nil => exact absurd hd h
  | cons c cs =>
    unfold jsTruthy
    rw [hd]
    rfl

lemma jsTruthy_eq_false {s : String} (h : jsTruthy s = false) : s.data = [] := by
  cases hd : s.data with
  | nil => rfl
  | cons c cs =>
    unfold jsTruthy at h
    rw [hd] at h
    simp at h

lemma jsOr_truthy (a b : String) (hb : jsTruthy b = true) : jsTruthy (jsOr a b) = true := by
  unfold jsOr
  split
  next h => exact h
  next => exact hb

lemma append_truthy_right (x y : String) (hy : jsTruthy y = true) :
    jsTruthy (x ++ y) = true := by
  apply jsTruthy_ne_nil
  rw [String.data_append]
  apply List.append_ne_nil_of_right_ne_nil
  intro hnil
  have hfy : jsTruthy y = false := by
    unfold jsTruthy
    rw [hnil]
    rfl
  rw [hfy] at hy
  exact absurd hy (by decide)

lemma startsWith_http_truthy (s : String) (h : jsStartsWith s "http" = true) :
    jsTruthy s = true := by
  apply jsTruthy_ne_nil
  intro hnil
  unfold jsStartsWith at h
  rw [hnil] at h
  exact absurd h (by decide)

lemma resolveURL_truthy (href base : String) (hb : jsTruthy base = true) :
    jsTruthy (resolveURL href base) = true := by
  unfold resolveURL
  split
  next => exact hb
  next h =>
    have hh : jsTruthy href = true := by
      cases hjs : jsTruthy href with
      | false => rw [hjs] at h; simp at h
      | true => rfl
    split
    · exact append_truthy_right _ _ hh
    · exact append_truthy_right _ _ hh

lemma resolveFullUrl_truthy (doc : Doc) (href : String) :
    jsTruthy (resolveFullUrl doc href) = true := by
  unfold resolveFullUrl
  split
  next h => exact startsWith_http_truthy _ h
  next => exact resolveURL_truthy _ _ (jsOr_truthy _ _ (by decide))

/-! ### Fold lemmas for the extractor phases -/

lemma itemTy_linked (n u t : String) : itemTy (linkedItem n u t) = some t := rfl

lemma itemUrlD_linked (n u t : String) : itemUrlD (linkedItem n u t) = u := rfl

lemma dedupKey_linked (n u t : String) : dedupKey (linkedItem n u t) = jsToLower u := rfl

/-- A fold of a well-behaved step only grows the `seen` set. -/
lemma foldl_seen_mono {β : Type} {f : ExtAcc → β → ExtAcc} (hf : StepOk f) :
    ∀ (l : List β) (acc : ExtAcc) (k : String), acc.seen.contains k = true →
      (l.foldl f acc).seen.contains k = true
  | [], _, _, h => h
  | b :: bs, acc, k, h => by
    rw [List.foldl_cons]
    apply foldl_seen_mono hf bs
    rcases hf acc b with h' | ⟨key, it, _, _, h'⟩
    · rw [h']; exact h
    · rw [h']
      show (key :: acc.seen).contains k = true
      rw [List.contains_cons, Bool.or_eq_true]
      exact Or.inr h

/-- A fold of a well-behaved step only appends to the snapshot. -/
lemma foldl_snapshot_mono {β : Type} {f : ExtAcc → β → ExtAcc} (hf : StepOk f) :
    ∀ (l : List β) (acc : ExtAcc) (it : Item), it ∈ acc.snapshot →
      it ∈ (l.foldl f acc).snapshot
  | [], _, _, h => h
  | b :: bs, acc, it, h => by
    rw [List.foldl_cons]
    apply foldl_snapshot_mono hf bs
    rcases hf acc b with h' | ⟨key, x, _, _, h'⟩
    · rw [h']; exact h
    · rw [h']
      show it ∈ acc.snapshot ++ [x]
      exact List.mem_append_left _ h

/-- Along a fold of a well-behaved step, every registered key has a
matching item in the snapshot. -/
lemma foldl_seen_to_item {β : Type} {f : ExtAcc → β → ExtAcc} (hf : StepOk f) :
    ∀ (l : List β) (acc : ExtAcc),
      (∀ k, acc.seen.contains k = true → ∃ it ∈ acc.snapshot, dedupKey it = k) →
      ∀ k, (l.foldl f acc).seen.contains k = true →
        ∃ it ∈ (l.foldl f acc).snapshot, dedupKey it = k
  | [], _, hbase, k, h => hbase k h
  | b :: bs, acc, hbase, k, h => by
    rw [List.foldl_cons] at h ⊢
    refine foldl_seen_to_item hf bs (f acc b) ?_ k h
    rcases hf acc b with h' | ⟨key, x, hk, _, h'⟩
    · rw [h']; exact hbase
    · rw [h']
      intro q hq
      replace hq : (key :: acc.seen).contains q = true := hq
      rw [List.contains_cons, Bool.or_eq_true] at hq
      rcases hq with he | hs
      · have hqk : q = key := by simpa using he
        refine ⟨x, ?_, ?_⟩
        · exact List.mem_append_right _ (by simp)
        · rw [hqk]; exact hk
      · rcases hbase q hs with ⟨it, hmem, hkey⟩
        exact ⟨it, List.mem_append_left _ hmem, hkey⟩

/-- Every item a fold of a shaped step deposits is either inherited
from the starting accumulator or satisfies the step's shape predicate
for one of the processed inputs. -/
lemma foldl_snapshot_shape {β : Type} {f : ExtAcc → β → ExtAcc} {P : β → Item → Prop}
    (hf : StepOkP f P) :
    ∀ (l : List β) (acc : ExtAcc) (it : Item), it ∈ (l.foldl f acc).snapshot →
      it ∈ acc.snapshot ∨ ∃ b ∈ l, P b it
  | [], _, _, h => Or.inl h
  | b :: bs, acc, it, h => by
    rw [List.foldl_cons] at h
    rcases foldl_snapshot_shape hf bs _ it h with h' | ⟨c, hc, hP⟩
    · rcases hf acc b with h'' | ⟨key, x, _, _, hPx, h''⟩
      · rw [h''] at h'
        exact Or.inl h'
      · rw [h''] at h'
        replace h' : it ∈ acc.snapshot ++ [x] := h'
        rcases List.mem_append.mp h' with hmem | hmem
        · exact Or.inl hmem
        · have hx : it = x := by simpa using hmem
          refine Or.inr ⟨b, by simp, ?_⟩
          rw [hx]
          exact hPx
    · exact Or.inr ⟨c, List.mem_cons_of_mem _ hc, hP⟩

/-- The starting accumulator of every extractor satisfies the
key-to-item base condition vacuously. -/
lemma emptyAcc_seen_base :
    ∀ k, (ExtAcc.mk [] []).seen.contains k = true →
      ∃ it ∈ (ExtAcc.mk [] []).snapshot, dedupKey it = k := by
  intro k h
  simp [List.contains] at h

/-- Processing an anchor that passes the PDF test leaves its URL key
registered (module PDF loop). -/
lemma modulePdfStep_registers (doc : Doc) (acc : ExtAcc) (a : Anchor)
    (hc : pdfCond doc a = true) :
    (modulePdfStep doc acc a).seen.contains (urlKey doc a) = true := by
  unfold modulePdfStep
  dsimp only
  split
  next =>
    split
    next =>
      show (jsToLower (resolveFullUrl doc (anchorHref a)) :: acc.seen).contains
        (urlKey doc a) = true
      rw [List.contains_cons, Bool.or_eq_true]
      left
      simp [urlKey]
    next h4 =>
      have hu := resolveFullUrl_truthy doc (anchorHref a)
      cases hcon : acc.seen.contains (jsToLower (resolveFullUrl doc (anchorHref a))) with
      | false =>
        exfalso
        exact h4 (by rw [hcon, hu]; rfl)
      | true => exact hcon
  next hnc => exact absurd hc hnc

/-- Folding the module PDF loop over a list containing a PDF-passing
anchor registers that anchor's URL key. -/
lemma modulePdf_covers (doc : Doc) :
    ∀ (l : List Anchor) (acc : ExtAcc) (a : Anchor), a ∈ l → pdfCond doc a = true →
      (l.foldl (modulePdfStep doc) acc).seen.contains (urlKey doc a) = true
  | [], _, _, ha, _ => absurd ha (List.not_mem_nil _)
  | b :: bs, acc, a, ha, hc => by
    rw [List.foldl_cons]
    rcases List.mem_cons.mp ha with rfl | ha2
    · exact foldl_seen_mono (modulePdfStep_ok doc) bs _ _
        (modulePdfStep_registers doc acc a hc)
    · exact modulePdf_covers doc bs _ a ha2 hc

/-- Processing an anchor that passes the generic link filters leaves
its URL key registered (generic link loop). -/
lemma genericLinkStep_registers (doc : Doc) (acc : ExtAcc) (a : Anchor)
    (hc : genericLinkCond doc a = true) :
    (genericLinkStep doc acc a).seen.contains (urlKey doc a) = true := by
  simp only [genericLinkCond, Bool.and_eq_true, Bool.not_eq_true'] at hc
  obtain ⟨⟨h1, h2⟩, h3⟩ := hc
  unfold genericLinkStep
  dsimp only
  split
  next hx => rw [h1] at hx; exact absurd hx (by decide)
  next =>
    split
    next hx => rw [h2] at hx; exact absurd hx (by decide)
    next =>
      split
      next hx => rw [h3] at hx; exact absurd hx (by decide)
      next =>
        split
        next =>
          show (jsToLower (resolveFullUrl doc (anchorHref a)) :: acc.seen).contains
            (urlKey doc a) = true
          rw [List.contains_cons, Bool.or_eq_true]
          left
          simp [urlKey]
        next h4 =>
          have hu := resolveFullUrl_truthy doc (anchorHref a)
          cases hcon : acc.seen.contains (jsToLower (resolveFullUrl doc (anchorHref a))) with
          | false =>
            exfalso
            exact h4 (by rw [hcon, hu]; rfl)
          | true => exact hcon

/-- Folding the generic link loop over a list containing a qualifying
anchor registers that anchor's URL key. -/
lemma genericLink_covers (doc : Doc) :
    ∀ (l : List Anchor) (acc : ExtAcc) (a : Anchor), a ∈ l →
      genericLinkCond doc a = true →
      (l.foldl (genericLinkStep doc) acc).seen.contains (urlKey doc a) = true
  | [], _, _, ha, _ => absurd ha (List.not_mem_nil _)
  | b :: bs, acc, a, ha, hc => by
    rw [List.foldl_cons]
    rcases List.mem_cons.mp ha with rfl | ha2
    · exact foldl_seen_mono (genericLinkStep_ok doc) bs _ _
        (genericLinkStep_registers doc acc a hc)
    · exact genericLink_covers doc bs _ a ha2 hc

/-- Items deposited by a phase that only pushes `t`-typed items can be
stripped off: an item of another type already lived in the incoming
accumulator. -/
lemma phase_strip {β : Type} {f : ExtAcc → β → ExtAcc} {t : String}
    (hf : StepOkP f (fun _ it => itemTy it = some t))
    (l : List β) (acc : ExtAcc) (it : Item)
    (hmem : it ∈ (l.foldl f acc).snapshot) (hne : itemTy it ≠ some t) :
    it ∈ acc.snapshot := by
  rcases foldl_snapshot_shape hf l acc it hmem with h | ⟨_, _, hP⟩
  · exact h
  · exact absurd hP hne

/-- C5 counterexample: a module page with one anchor whose reference
contains ".pdf" but does not end in the PDF extension — the claim says
it yields no pdf-typed item, yet the extractor emits one (the test at
background.js:285 is substring containment, not an extension check). -/
theorem modulePdf_claim_counterexample :
    c5CDoc.anchors = [c5CAnchor] ∧
    endsInPdfExt (anchorHref c5CAnchor) = false ∧
    extractModulePageSnapshot c5CDoc =
      [linkedItem "Lecture" "https://x/a.pdfzz" "pdf"] := by
  decide

/-- C5 amended: on a module page, every anchor whose reference — href
or resolved URL — contains ".pdf" case-insensitively is represented in
the snapshot by a pdf-typed item with that anchor's URL key, and every
pdf-typed item the module extractor emits is the PDF item of such an
anchor, with the name fallback chain link text, else title/aria-label,
else last URL path segment, else "PDF Document". -/
theorem modulePdf_items_amended (doc : Doc) :
    (∀ a ∈ doc.anchors, pdfCond doc a = true →
       ∃ it, it ∈ extractModulePageSnapshot doc ∧ itemTy it = some "pdf" ∧
         jsToLower (itemUrlD it) = urlKey doc a) ∧
    (∀ it ∈ extractModulePageSnapshot doc, itemTy it = some "pdf" →
       ∃ a, a ∈ doc.anchors ∧ pdfCond doc a = true ∧ it = modulePdfItem doc a) := by
  have hdef : extractModulePageSnapshot doc =
      (doc.noticeTitles.foldl moduleNoticeStep
        ((fileLinksOf doc).foldl (moduleFileStep doc)
          (doc.activities.foldl (moduleActivityStep doc)
            (doc.anchors.foldl (modulePdfStep doc) ⟨[], []⟩)))).snapshot := rfl
  constructor
  · intro a ha hc
    have hseen := modulePdf_covers doc doc.anchors ⟨[], []⟩ a ha hc
    obtain ⟨it, hmem1, hkey⟩ :=
      foldl_seen_to_item (modulePdfStep_ok doc) doc.anchors ⟨[], []⟩
        emptyAcc_seen_base _ hseen
    rcases foldl_snapshot_shape (modulePdfStep_okP doc) doc.anchors ⟨[], []⟩ it hmem1 with
      h0 | ⟨b, _, _, hform⟩
    · exact absurd h0 (List.not_mem_nil _)
    · refine ⟨it, ?_, ?_, ?_⟩
      · rw [hdef]
        apply foldl_snapshot_mono moduleNoticeStep_ok
        apply foldl_snapshot_mono (moduleFileStep_ok doc)
        apply foldl_snapshot_mono (moduleActivityStep_ok doc)
        exact hmem1
      · rw [hform]; rfl
      · rw [hform] at hkey ⊢
        exact hkey
  · intro it hmem hty
    rw [hdef] at hmem
    have hmem3 := phase_strip moduleNoticeStep_okP _ _ it hmem
      (by rw [hty]; decide)
    have hmem2 := phase_strip (moduleFileStep_okP doc) _ _ it hmem3
      (by rw [hty]; decide)
    have hmem1 := phase_strip (moduleActivityStep_okP doc) _ _ it hmem2
      (by rw [hty]; decide)
    rcases foldl_snapshot_shape (modulePdfStep_okP doc) doc.anchors ⟨[], []⟩ it hmem1 with
      h0 | ⟨b, hb, hcb, hform⟩
    · exact absurd h0 (List.not_mem_nil _)
    · exact ⟨b, hb, hcb, hform⟩

/-- Witness for C5: on a concrete module page with one PDF anchor, the
amended theorem yields a pdf item under the anchor's URL key. -/
theorem modulePdf_items_amended_witness :
    (extractModulePageSnapshot c5WDoc).any
      (fun it => itemTy it == some "pdf" &&
        jsToLower (itemUrlD it) == urlKey c5WDoc c5WAnchor) = true := by
  obtain ⟨it, hmem, hty, hurl⟩ :=
    (modulePdf_items_amended c5WDoc).1 c5WAnchor (by decide) (by decide)
  refine List.any_eq_true.mpr ⟨it, hmem, ?_⟩
  rw [hty, hurl]
  simp

/-- C8 counterexample: a generic page with one anchor whose visible
text is empty but whose title attribute is a valid label — the claim
requires non-empty visible text, yet the extractor emits a link item
for it (the label chain at background.js:475 falls back to the title
attribute). -/
theorem genericLink_claim_counterexample :
    c8CDoc.anchors = [c8CAnchor] ∧
    jsTrim c8CAnchor.textContent = "" ∧
    extractGenericPageSnapshot c8CDoc =
      [linkedItem "Course Syllabus" "https://x/syllabus" "link"] := by
  decide

/-- C8 amended: the generic extractor emits a `link` item only for
anchors whose resolved URL does not contain ".pdf" (lowercased) and
whose derived label — link text, else title attribute — is non-empty,
of length 3 to 200, and not a navigation stopword, with that anchor's
label and resolved URL; and every such anchor's URL key is claimed in
the snapshot by an item of type `pdf` or `link` (a link item unless
the PDF loop claimed the same key first). -/
theorem genericLink_items_amended (doc : Doc) :
    (∀ a ∈ doc.anchors, genericLinkCond doc a = true →
       ∃ it, it ∈ extractGenericPageSnapshot doc ∧ dedupKey it = urlKey doc a ∧
         (itemTy it = some "pdf" ∨ itemTy it = some "link")) ∧
    (∀ it ∈ extractGenericPageSnapshot doc, itemTy it = some "link" →
       ∃ a, a ∈ doc.anchors ∧ genericLinkCond doc a = true ∧
         it = genericLinkItem doc a) := by
  have hdef : extractGenericPageSnapshot doc =
      (doc.headings.foldl genericHeadingStep
        (doc.anchors.foldl (genericLinkStep doc)
          (doc.anchors.foldl (genericPdfStep doc) ⟨[], []⟩))).snapshot := rfl
  constructor
  · intro a ha hc
    have hseen := genericLink_covers doc doc.anchors
      (doc.anchors.foldl (genericPdfStep doc) ⟨[], []⟩) a ha hc
    have hbase1 := foldl_seen_to_item (genericPdfStep_ok doc) doc.anchors ⟨[], []⟩
      emptyAcc_seen_base
    obtain ⟨it, hmem2, hkey⟩ :=
      foldl_seen_to_item (genericLinkStep_ok doc) doc.anchors _ hbase1 _ hseen
    refine ⟨it, ?_, hkey, ?_⟩
    · rw [hdef]
      apply foldl_snapshot_mono genericHeadingStep_ok
      exact hmem2
    · rcases foldl_snapshot_shape (genericLinkStep_okP doc) doc.anchors _ it hmem2 with
        hmem1 | ⟨b, _, _, hform⟩
      · rcases foldl_snapshot_shape (genericPdfStep_okP doc) doc.anchors ⟨[], []⟩ it hmem1 with
          h0 | ⟨b, _, _, hform⟩
        · exact absurd h0 (List.not_mem_nil _)
        · left
          rw [hform]
          rfl
      · right
        rw [hform]
        rfl
  · intro it hmem hty
    rw [hdef] at hmem
    have hmem2 := phase_strip genericHeadingStep_okP _ _ it hmem
      (by rw [hty]; decide)
    rcases foldl_snapshot_shape (genericLinkStep_okP doc) doc.anchors _ it hmem2 with
      hmem1 | ⟨a, ha, hca, hform⟩
    · exfalso
      rcases foldl_snapshot_shape (genericPdfStep_okP doc) doc.anchors ⟨[], []⟩ it hmem1 with
        h0 | ⟨b, _, _, hform⟩
      · exact absurd h0 (List.not_mem_nil _)
      · rw [hform] at hty
        have hbad : (some "pdf" : Option String) = some "link" := hty
        exact absurd hbad (by decide)
    · exact ⟨a, ha, hca, hform⟩

/-- Witness for C8: on a concrete generic page with one content link,
the amended theorem yields an item claiming the anchor's URL key, of
type pdf or link. -/
theorem genericLink_items_amended_witness :
    (extractGenericPageSnapshot c8WDoc).any
      (fun it => dedupKey it == urlKey c8WDoc c8WAnchor &&
        (itemTy it == some "pdf" || itemTy it == some "link")) = true := by
  obtain ⟨it, hmem, hkey, hty⟩ :=
    (genericLink_items_amended c8WDoc).1 c8WAnchor (by decide) (by decide)
  refine List.any_eq_true.mpr ⟨it, hmem, ?_⟩
  rcases hty with h | h <;> rw [hkey, h] <;> simp

/-! ### Order and dedup facts for `normalize` (C7) -/

lemma listCharLe_total : ∀ (cs ds : List Char),
    listCharLe cs ds = true ∨ listCharLe ds cs = true
  | [], _ => Or.inl rfl
  | _ :: _, [] => Or.inr rfl
  | a :: as, b :: bs => by
    by_cases hab : a = b
    · subst hab
      rcases listCharLe_total as bs with h | h
      · left
        show (if a = a then listCharLe as bs else decide (a < a)) = true
        rw [if_pos rfl]
        exact h
      · right
        show (if a = a then listCharLe bs as else decide (a < a)) = true
        rw [if_pos rfl]
        exact h
    · rcases lt_trichotomy a b with h | h | h
      · left
        show (if a = b then listCharLe as bs else decide (a < b)) = true
        rw [if_neg hab]
        exact decide_eq_true h
      · exact absurd h hab
      · right
        show (if b = a then listCharLe bs as else decide (b < a)) = true
        rw [if_neg (fun hba => hab hba.symm)]
        exact decide_eq_true h

lemma listCharLe_trans : ∀ (cs ds es : List Char),
    listCharLe cs ds = true → listCharLe ds es = true → listCharLe cs es = true
  | [], _, _, _, _ => rfl
  | _ :: _, [], _, h1, _ => by simp [listCharLe] at h1
  | _ :: _, _ :: _, [], _, h2 => by simp [listCharLe] at h2
  | a :: as, b :: bs, c :: cs', h1, h2 => by
    unfold listCharLe at h1 h2 ⊢
    by_cases hab : a = b
    · subst hab
      rw [if_pos rfl] at h1
      by_cases hbc : a = c
      · subst hbc
        rw [if_pos rfl] at h2 ⊢
        exact listCharLe_trans as bs cs' h1 h2
      · rw [if_neg hbc] at h2 ⊢
        exact h2
    · rw [if_neg hab] at h1
      have hab2 : a < b := of_decide_eq_true h1
      by_cases hbc : b = c
      · subst hbc
        rw [if_neg hab]
        exact decide_eq_true hab2
      · rw [if_neg hbc] at h2
        have hbc2 : b < c := of_decide_eq_true h2
        have hac : a < c := lt_trans hab2 hbc2
        rw [if_neg (ne_of_lt hac)]
        exact decide_eq_true hac

lemma listCharLe_antisymm : ∀ (cs ds : List Char),
    listCharLe cs ds = true → listCharLe ds cs = true → cs = ds
  | [], [], _, _ => rfl
  | [], _ :: _, _, h2 => by simp [listCharLe] at h2
  | _ :: _, [], h1, _ => by simp [listCharLe] at h1
  | a :: as, b :: bs, h1, h2 => by
    unfold listCharLe at h1 h2
    by_cases hab : a = b
    · subst hab
      rw [if_pos rfl] at h1 h2
      rw [listCharLe_antisymm as bs h1 h2]
    · rw [if_neg hab] at h1
      rw [if_neg (fun hba => hab hba.symm)] at h2
      have h1b : a < b := of_decide_eq_true h1
      have h2b : b < a := of_decide_eq_true h2
      exact absurd (lt_trans h1b h2b) (lt_irrefl a)

lemma keyLe_total (a b : String) : keyLe a b = true ∨ keyLe b a = true :=
  listCharLe_total a.data b.data

lemma keyLe_trans {a b c : String} (h1 : keyLe a b = true) (h2 : keyLe b c = true) :
    keyLe a c = true :=
  listCharLe_trans _ _ _ h1 h2

lemma keyLe_antisymm {a b : String} (h1 : keyLe a b = true) (h2 : keyLe b a = true) :
    a = b :=
  String.ext (listCharLe_antisymm _ _ h1 h2)

instance : IsTotal (String × Item) pairLe := ⟨fun p q => keyLe_total p.1 q.1⟩

instance : IsTrans (String × Item) pairLe := ⟨fun _ _ _ h1 h2 => keyLe_trans h1 h2⟩

instance : IsAntisymm (String × Item) pairLt :=
  ⟨fun _ _ h1 h2 => absurd (keyLe_antisymm h1.1 h2.1) h1.2⟩

/-- Everything the dedup pass retains came from the input: its key is
the item's own (non-empty) lowercased identity, not previously taken. -/
lemma dedupKeyed_mem_spec : ∀ (taken : List String) (l : List Item) (k : String) (x : Item),
    (k, x) ∈ dedupKeyed taken l →
    keyOf x = k ∧ x ∈ l ∧ taken.contains k = false ∧ jsTruthy k = true
  | _, [], _, _, h => absurd h (List.not_mem_nil _)
  | taken, it :: rest, k, x, h => by
    unfold dedupKeyed at h
    dsimp only at h
    split at h
    next =>
      obtain ⟨h1, h2, h3, h4⟩ := dedupKeyed_mem_spec taken rest k x h
      exact ⟨h1, List.mem_cons_of_mem _ h2, h3, h4⟩
    next hcond =>
      rw [Bool.not_eq_true, Bool.or_eq_false_iff] at hcond
      obtain ⟨hc1, hc2⟩ := hcond
      rw [Bool.not_eq_false'] at hc1
      rw [List.mem_cons] at h
      rcases h with h | h
      · have hk : k = keyOf it := congrArg Prod.fst h
        have hx : x = it := congrArg Prod.snd h
        subst hk
        subst hx
        exact ⟨rfl, List.mem_cons_self _ _, hc2, hc1⟩
      · obtain ⟨h1, h2, h3, h4⟩ := dedupKeyed_mem_spec (keyOf it :: taken) rest k x h
        rw [List.contains_cons, Bool.or_eq_false_iff] at h3
        exact ⟨h1, List.mem_cons_of_mem _ h2, h3.2, h4⟩

/-- When no two distinct input items share a lowercased identity,
every input item with a usable, untaken identity is retained by the
dedup pass. -/
lemma dedupKeyed_covers : ∀ (taken : List String) (l : List Item) (x : Item),
    (∀ a ∈ l, ∀ b ∈ l, keyOf a = keyOf b → a = b) →
    x ∈ l → jsTruthy (keyOf x) = true → taken.contains (keyOf x) = false →
    (keyOf x, x) ∈ dedupKeyed taken l
  | _, [], x, _, hx, _, _ => absurd hx (List.not_mem_nil _)
  | taken, y :: rest, x, H, hx, ht, hc => by
    have Hrest : ∀ a ∈ rest, ∀ b ∈ rest, keyOf a = keyOf b → a = b := fun a ha b hb =>
      H a (List.mem_cons_of_mem _ ha) b (List.mem_cons_of_mem _ hb)
    unfold dedupKeyed
    dsimp only
    rcases List.mem_cons.mp hx with rfl | hx2
    · split
      next hcond =>
        exfalso
        rw [ht, hc] at hcond
        exact absurd hcond (by decide)
      next =>
        exact List.mem_cons_self _ _
    · split
      next =>
        exact dedupKeyed_covers taken rest x Hrest hx2 ht hc
      next =>
        by_cases hkey : keyOf x = keyOf y
        · have hxy : x = y :=
            H x (List.mem_cons_of_mem _ hx2) y (List.mem_cons_self _ _) hkey
          rw [hxy]
          exact List.mem_cons_self _ _
        · apply List.mem_cons_of_mem
          apply dedupKeyed_covers (keyOf y :: taken) rest x Hrest hx2 ht
          rw [List.contains_cons, Bool.or_eq_false_iff]
          exact ⟨beq_eq_false_iff_ne.mpr hkey, hc⟩

/-- The keys the dedup pass retains are pairwise distinct and disjoint
from the already-taken keys. -/
lemma dedupKeyed_keys_nodup : ∀ (taken : List String) (l : List Item),
    ((dedupKeyed taken l).map Prod.fst).Nodup ∧
    ∀ k ∈ (dedupKeyed taken l).map Prod.fst, taken.contains k = false
  | _, [] => ⟨List.nodup_nil, fun k h => absurd h (List.not_mem_nil _)⟩
  | taken, it :: rest => by
    unfold dedupKeyed
    dsimp only
    split
    next => exact dedupKeyed_keys_nodup taken rest
    next hcond =>
      rw [Bool.not_eq_true, Bool.or_eq_false_iff] at hcond
      obtain ⟨hnd, hdis⟩ := dedupKeyed_keys_nodup (keyOf it :: taken) rest
      constructor
      · rw [List.map_cons, List.nodup_cons]
        refine ⟨?_, hnd⟩
        intro hmem
        have hk := hdis _ hmem
        rw [List.contains_cons, Bool.or_eq_false_iff] at hk
        exact absurd hk.1 (by simp)
      · intro k hk
        rw [List.map_cons, List.mem_cons] at hk
        rcases hk with rfl | hk2
        · exact hcond.2
        · have hk3 := hdis _ hk2
          rw [List.contains_cons, Bool.or_eq_false_iff] at hk3
          exact hk3.2

/-- C7 counterexample: two distinct items with the same identity —
first-seen-wins dedup retains a different representative under the two
orders, so `normalize` is not permutation-invariant as claimed. -/
theorem normalize_perm_counterexample :
    List.Perm [c7ItemA, c7ItemB] [c7ItemB, c7ItemA] ∧
    normalize [c7ItemA, c7ItemB] ≠ normalize [c7ItemB, c7ItemA] := by
  constructor
  · exact List.Perm.swap _ _ _
  · decide

/-- C7 amended: `normalize` is order-independent on raw sequences in
which any two items sharing a lowercased identity are equal — for any
permutation of such a sequence the canonical snapshots coincide
field-for-field. -/
theorem normalize_perm_of_unique_identities (l l2 : List Item)
    (hperm : l.Perm l2)
    (huniq : ∀ x ∈ l, ∀ y ∈ l, keyOf x = keyOf y → x = y) :
    normalize l = normalize l2 := by
  have huniq2 : ∀ x ∈ l2, ∀ y ∈ l2, keyOf x = keyOf y → x = y := fun x hx y hy =>
    huniq x (hperm.mem_iff.mpr hx) y (hperm.mem_iff.mpr hy)
  have hcharA : ∀ p : String × Item, p ∈ dedupKeyed [] l ↔
      (p.2 ∈ l ∧ keyOf p.2 = p.1 ∧ jsTruthy p.1 = true) := by
    intro p
    constructor
    · intro h
      obtain ⟨h1, h2, _, h4⟩ := dedupKeyed_mem_spec [] l p.1 p.2 h
      exact ⟨h2, h1, h4⟩
    · rintro ⟨hmem, hkey, htr⟩
      have hres := dedupKeyed_covers [] l p.2 huniq hmem (by rw [hkey]; exact htr)
        (by rw [hkey]; rfl)
      rw [hkey] at hres
      exact hres
  have hcharB : ∀ p : String × Item, p ∈ dedupKeyed [] l2 ↔
      (p.2 ∈ l2 ∧ keyOf p.2 = p.1 ∧ jsTruthy p.1 = true) := by
    intro p
    constructor
    · intro h
      obtain ⟨h1, h2, _, h4⟩ := dedupKeyed_mem_spec [] l2 p.1 p.2 h
      exact ⟨h2, h1, h4⟩
    · rintro ⟨hmem, hkey, htr⟩
      have hres := dedupKeyed_covers [] l2 p.2 huniq2 hmem (by rw [hkey]; exact htr)
        (by rw [hkey]; rfl)
      rw [hkey] at hres
      exact hres
  have hnA : (dedupKeyed [] l).Nodup :=
    List.Nodup.of_map _ (dedupKeyed_keys_nodup [] l).1
  have hnB : (dedupKeyed [] l2).Nodup :=
    List.Nodup.of_map _ (dedupKeyed_keys_nodup [] l2).1
  have hAB : (dedupKeyed [] l).Perm (dedupKeyed [] l2) := by
    rw [List.perm_ext_iff_of_nodup hnA hnB]
    intro p
    rw [hcharA p, hcharB p]
    constructor
    · rintro ⟨h1, h2, h3⟩
      exact ⟨hperm.mem_iff.mp h1, h2, h3⟩
    · rintro ⟨h1, h2, h3⟩
      exact ⟨hperm.mem_iff.mpr h1, h2, h3⟩
  have hpermS : ((dedupKeyed [] l).insertionSort pairLe).Perm
      ((dedupKeyed [] l2).insertionSort pairLe) :=
    ((List.perm_insertionSort pairLe _).trans hAB).trans
      (List.perm_insertionSort pairLe _).symm
  have hstrictA : List.Sorted pairLt ((dedupKeyed [] l).insertionSort pairLe) := by
    have hndS : (((dedupKeyed [] l).insertionSort pairLe).map Prod.fst).Nodup :=
      ((List.Perm.map Prod.fst (List.perm_insertionSort pairLe _)).symm).nodup
        (dedupKeyed_keys_nodup [] l).1
    have hne := List.pairwise_map.mp hndS
    exact List.Pairwise.and (List.sorted_insertionSort pairLe _) hne
  have hstrictB : List.Sorted pairLt ((dedupKeyed [] l2).insertionSort pairLe) := by
    have hndS : (((dedupKeyed [] l2).insertionSort pairLe).map Prod.fst).Nodup :=
      ((List.Perm.map Prod.fst (List.perm_insertionSort pairLe _)).symm).nodup
        (dedupKeyed_keys_nodup [] l2).1
    have hne := List.pairwise_map.mp hndS
    exact List.Pairwise.and (List.sorted_insertionSort pairLe _) hne
  have hSeq := List.eq_of_perm_of_sorted hpermS hstrictA hstrictB
  show ((dedupKeyed [] l).insertionSort pairLe).map Prod.snd =
       ((dedupKeyed [] l2).insertionSort pairLe).map Prod.snd
  rw [hSeq]

/-- Witness for C7 at a concrete two-item, two-identity sequence and
its swap. -/
theorem normalize_perm_of_unique_identities_witness :
    normalize [c7ItemA, c7ItemC] = normalize [c7ItemC, c7ItemA] :=
  normalize_perm_of_unique_identities _ _ (List.Perm.swap _ _ _) (by decide)

end CourseWeb
